import Mathlib

/-!
# Verification of the order-type classification & revenue attribution pipeline

Shallow embedding of the core pipeline of the `tracker` Django app:

* `tracker/utils/order_type_detector.py` — `determine_order_type_from_codes`
  and `_normalize_category_to_order_type`;
* `tracker/views_invoice.py` — the `_aggregate_items` helper and the line-item
  creation loop of `api_upload_extract_invoice` (lines 455–588);
* `tracker/views_invoice_upload.py` — `_get_item_code_categories` and the
  per-invoice detector invocation (lines 975–993);
* `tracker/utils/revenue_utils.py` — the line-item summation loop of
  `get_revenue_by_order_type`.

Conventions of the embedding:

* Python `Decimal` values are modelled exactly by `ℚ`.  All arithmetic the
  pipeline performs on the claims' inputs is exact, so the default 28-digit
  `Decimal` context never rounds there.
* Python strings are modelled by `String`; the string operations the source
  uses (`strip`, `lower`, `split`, `in`, `sorted`) are implemented below by
  structural recursion on the underlying character list so that concrete
  computations reduce inside the kernel.
* A raw numeric field of an extracted item (`qty`, `rate`, `value`) is
  modelled by `RawNum`: `absent` stands for a missing key, `None`, or any
  falsy raw value (`0`, `''`); `val q` stands for a truthy raw value whose
  `Decimal(str(...))` parse yields `q` (so `val 0` is e.g. the string `"0"`);
  `junk` stands for a truthy unparsable value.  The aggregator treats all
  members of each class identically, so the collapse is behaviour-preserving.
* Python `dict`s keyed by strings are modelled by insertion-ordered
  association lists, and Python `set`s by insertion-ordered duplicate-free
  lists; the pipeline never observes the iteration order of a set except
  through `sorted`, which is modelled faithfully.
-/

namespace Superdoll

attribute [local semireducible] Rat.add Rat.mul Rat.inv Rat.sub

set_option maxRecDepth 16000

/-! ## Python string primitives -/

/-- Both-ends whitespace trim on character lists (Python `str.strip()`). -/
def trimChars (l : List Char) : List Char :=
  ((l.dropWhile Char.isWhitespace).reverse.dropWhile Char.isWhitespace).reverse

/-- Python `str.strip()`. -/
def pyStrip (s : String) : String := ⟨trimChars s.data⟩

/-- Python `str.lower()` (the source only ever lowers ASCII category text). -/
def pyLower (s : String) : String := ⟨s.data.map Char.toLower⟩

/-- Helper for `str.split()`: accumulates the current word (reversed). -/
def splitWs : List Char → List Char → List (List Char)
  | [], acc => if acc.isEmpty then [] else [acc.reverse]
  | c :: rest, acc =>
    if c.isWhitespace then
      if acc.isEmpty then splitWs rest [] else acc.reverse :: splitWs rest []
    else splitWs rest (c :: acc)

/-- Python `str.split()` with no argument: split on whitespace runs, dropping
empty pieces. -/
def pyWords (s : String) : List String := (splitWs s.data []).map String.mk

/-- `' '.join(parts)`. -/
def joinSpace : List String → String
  | [] => ""
  | [x] => x
  | x :: y :: rest => x ++ " " ++ joinSpace (y :: rest)

/-- `' '.join(desc.lower().split())` — the description normalisation of
`_aggregate_items` (views_invoice.py line 469). -/
def pyNormalizeDesc (s : String) : String := joinSpace (pyWords (pyLower s))

/-- Does `pat` occur at the head of `l`? -/
def lstarts : List Char → List Char → Bool
  | [], _ => true
  | _ :: _, [] => false
  | a :: as_, b :: bs => a == b && lstarts as_ bs

/-- Substring occurrence on character lists. -/
def loccurs (pat : List Char) : List Char → Bool
  | [] => pat.isEmpty
  | c :: rest => lstarts pat (c :: rest) || loccurs pat rest

/-- Python `pat in hay` for strings. -/
def pyContains (hay pat : String) : Bool := loccurs pat.data hay.data

/-- Code-point comparison of character lists (Python string `<`). -/
def ltChars : List Char → List Char → Bool
  | [], [] => false
  | [], _ :: _ => true
  | _ :: _, [] => false
  | a :: as_, b :: bs => a < b || (a == b && ltChars as_ bs)

/-- Python string `<=`. -/
def pyStrLe (a b : String) : Bool := ltChars a.data b.data || a == b

/-- Insert into a `pyStrLe`-sorted list. -/
def insSorted (x : String) : List String → List String
  | [] => [x]
  | y :: ys => if pyStrLe x y then x :: y :: ys else y :: insSorted x ys

/-- Python `sorted` on a list of strings (insertion sort; stable, but the
source only sorts duplicate-free lists). -/
def pySorted : List String → List String
  | [] => []
  | x :: xs => insSorted x (pySorted xs)

/-- First-occurrence deduplication, `seen` holding the already-emitted
elements: the observable content of a Python `set` built by iteration. -/
def dedupAux (seen : List String) : List String → List String
  | [] => []
  | x :: xs => if x ∈ seen then dedupAux seen xs else x :: dedupAux (x :: seen) xs

/-- First-occurrence deduplication of a string list. -/
def pyDedup (l : List String) : List String := dedupAux [] l

/-- `set.add` on the insertion-ordered model of a Python set. -/
def dedupAppend (l : List String) (x : String) : List String :=
  if x ∈ l then l else l ++ [x]

/-! ## Data model of the line-item aggregator (`views_invoice.py`, 455–543) -/

/-- A raw numeric field of an extracted item dict.  `absent` = key missing,
`None`, or any falsy raw value (`0`, `''`); `val q` = truthy raw value whose
`Decimal(str(...))` parse is `q`; `junk` = truthy but unparsable. -/
inductive RawNum where
  | absent : RawNum
  | val : ℚ → RawNum
  | junk : RawNum
deriving DecidableEq

/-- One extracted item dict as consumed by `_aggregate_items`. -/
structure RawItem where
  item_code : Option String := none
  code : Option String := none
  description : Option String := none
  qty : RawNum := RawNum.absent
  unit : Option String := none
  rate : RawNum := RawNum.absent
  value : RawNum := RawNum.absent
deriving DecidableEq

/-- `desc = (it.get('description') or 'Item').strip()` (line 464). -/
def pyDesc (it : RawItem) : String :=
  pyStrip (match it.description with
    | none => "Item"
    | some s => if s = "" then "Item" else s)

/-- `code = (it.get('item_code') or it.get('code') or '').strip()` (line 465). -/
def pyCodeStr (it : RawItem) : String :=
  pyStrip (match it.item_code with
    | some s =>
      if s = "" then (match it.code with | some t => t | none => "") else s
    | none => (match it.code with | some t => t | none => ""))

/-- `key = code if code else desc_normalized` (lines 469–470). -/
def pyKey (it : RawItem) : String :=
  if pyCodeStr it = "" then pyNormalizeDesc (pyDesc it) else pyCodeStr it

/-- `qty = Decimal(str(it.get('qty') or 1))` with the `except` fallback to `1`
(lines 473–476): falsy raw → `1`, unparsable → `1`, else the parsed value. -/
def coerceQty : RawNum → ℚ
  | RawNum.absent => 1
  | RawNum.junk => 1
  | RawNum.val q => q

/-- A `rate`/`value` survives into the per-group list iff its raw field is
truthy, parses, and the parsed `Decimal` is itself truthy, i.e. nonzero
(lines 484–498 parse, lines 515–518 `if rate:` / `if value:` collect). -/
def collectNum : RawNum → Option ℚ
  | RawNum.val q => if q = 0 then none else some q
  | _ => none

/-- `unit = (it.get('unit') or '').strip() or None` (line 478). -/
def pyUnit (it : RawItem) : Option String :=
  if pyStrip (match it.unit with | none => "" | some s => s) = "" then none
  else some (pyStrip (match it.unit with | none => "" | some s => s))

/-- One bucket entry during aggregation (lines 501–509). -/
structure Group where
  code : Option String
  description : String
  qty : ℚ
  unit : Option String
  rates : List ℚ
  values : List ℚ
deriving DecidableEq

/-- The freshly initialised bucket entry for an unseen key (lines 501–509):
`code or None`, the stripped description, zero qty, the item's unit, and
empty rate/value lists. -/
def emptyGroup (it : RawItem) : Group :=
  { code := if pyCodeStr it = "" then none else some (pyCodeStr it)
    description := pyDesc it
    qty := 0
    unit := pyUnit it
    rates := []
    values := [] }

/-- The accumulation step for one item (lines 511–518): add the coerced qty,
keep the first non-empty unit, and append collected rate/value. -/
def addItem (g : Group) (it : RawItem) : Group :=
  { g with
    qty := g.qty + coerceQty it.qty
    unit := match g.unit with | some u => some u | none => pyUnit it
    rates := g.rates ++ (match collectNum it.rate with | some q => [q] | none => [])
    values := g.values ++ (match collectNum it.value with | some q => [q] | none => []) }

/-- The `bucket` dict: insertion-ordered association list keyed by `pyKey`. -/
def Bucket : Type := List (String × Group)

/-- First-match lookup in the bucket (Python `key in bucket` / `bucket[key]`). -/
def lookupA : List (String × Group) → String → Option Group
  | [], _ => none
  | (k', g) :: rest, k => if k' = k then some g else lookupA rest k

/-- Replace the (unique) entry at `k` by `f` of it; other entries unchanged. -/
def updateA (f : Group → Group) : List (String × Group) → String → List (String × Group)
  | [], _ => []
  | (k', g) :: rest, k =>
    if k' = k then (k', f g) :: rest else (k', g) :: updateA f rest k

/-- Processing one item against the bucket (lines 500–518): initialise the
key's entry if unseen, then accumulate into it. -/
def stepBucket (b : List (String × Group)) (it : RawItem) : List (String × Group) :=
  match lookupA b (pyKey it) with
  | some _ => updateA (fun g => addItem g it) b (pyKey it)
  | none => updateA (fun g => addItem g it) (b ++ [(pyKey it, emptyGroup it)]) (pyKey it)

/-- The fully built bucket after the first loop of `_aggregate_items`. -/
def runBucket (items : List RawItem) : List (String × Group) :=
  items.foldl stepBucket []

/-- One aggregated output dict (lines 535–541). -/
structure AggItem where
  code : Option String
  description : String
  qty : ℚ
  unit : Option String
  unit_price : ℚ
deriving DecidableEq

/-- Finalisation of one group (lines 522–541): clamp the qty sum to `1` when
non-positive; unit price is the mean of collected rates if any, else the sum
of collected values over the final qty (guarded), else `0`. -/
def finalizeGroup (g : Group) : AggItem :=
  { code := g.code
    description := g.description
    qty := if 0 < g.qty then g.qty else 1
    unit := g.unit
    unit_price :=
      if g.rates ≠ [] then g.rates.sum / (g.rates.length : ℚ)
      else if g.values ≠ [] then
        (if 0 < (if 0 < g.qty then g.qty else 1) then
          g.values.sum / (if 0 < g.qty then g.qty else 1)
        else 0)
      else 0 }

/-- `_aggregate_items` (views_invoice.py lines 455–543). -/
def _aggregate_items (items : List RawItem) : List AggItem :=
  (runBucket items).map (fun kg => finalizeGroup kg.2)

/-- The dict an aggregated entry presents when fed back into
`_aggregate_items`: it carries `code`, `description`, `qty`, `unit` and
`unit_price` keys — and no `rate` or `value` key.  The qty `Decimal` is falsy
iff it is `0`. -/
def aggToRaw (e : AggItem) : RawItem :=
  { item_code := none
    code := e.code
    description := some e.description
    qty := if e.qty = 0 then RawNum.absent else RawNum.val e.qty
    unit := e.unit
    rate := RawNum.absent
    value := RawNum.absent }

/-! ## Code registry and order-type detector (`order_type_detector.py`) -/

/-- One `LabourCode` row.  `code` and `category` are `CharField`s (arbitrary
strings at the ORM level); inactive rows are excluded from lookups. -/
structure RegEntry where
  code : String
  category : String
  is_active : Bool
deriving DecidableEq

/-- `_normalize_category_to_order_type` (order_type_detector.py 109–130).
`none` models a Python `None` argument; both `None` and `''` are falsy. -/
def _normalize_category_to_order_type (category : Option String) : String :=
  match category with
  | none => "unspecified"
  | some c =>
    if c = "" then "unspecified"
    else
      if pyStrip (pyLower c) = "labour" then "labour"
      else if pyContains (pyStrip (pyLower c)) "tyre"
           || pyContains (pyStrip (pyLower c)) "service" then "service"
      else "labour"

/-- `cleaned_codes = [str(code).strip() for code in item_codes if code]`
(line 40): the falsy filter runs BEFORE stripping. -/
def cleanedCodes (item_codes : List String) : List String :=
  (item_codes.filter (fun c => c ≠ "")).map pyStrip

/-- The `LabourCode.objects.filter(code__in=cleaned, is_active=True)` query
(lines 45–48): active rows whose code is in the cleaned list.  (The model
`Meta` orders rows by `code`; the detector's output never depends on row
order, so registry order is kept.) -/
def foundEntries (reg : List RegEntry) (cleaned : List String) : List RegEntry :=
  reg.filter (fun e => e.is_active && cleaned.contains e.code)

/-- Python dict insertion: overwrite in place or append. -/
def dictInsert {α : Type} : List (String × α) → String → α → List (String × α)
  | [], k, v => [(k, v)]
  | (k', v') :: rest, k, v =>
    if k' = k then (k, v) :: rest else (k', v') :: dictInsert rest k v

/-- Python dict lookup. -/
def dictGet {α : Type} : List (String × α) → String → Option α
  | [], _ => none
  | (k', v') :: rest, k => if k' = k then some v' else dictGet rest k

/-- `code_to_category` built over the found rows (lines 51–61). -/
def codeToCategory (found : List RegEntry) : List (String × String) :=
  found.foldl (fun d e => dictInsert d e.code e.category) []

/-- `unmapped_codes` (lines 63–66): cleaned codes not among the found ones,
in order, duplicates retained. -/
def unmappedCodes (reg : List RegEntry) (cleaned : List String) : List String :=
  cleaned.filter (fun c => !(((foundEntries reg cleaned).map RegEntry.code).contains c))

/-- `categories_found` before the unmapped step (lines 52–60): the distinct
categories of the found rows. -/
def catsFound (reg : List RegEntry) (cleaned : List String) : List String :=
  pyDedup ((foundEntries reg cleaned).map RegEntry.category)

/-- `order_types_found` (lines 70–79): distinct normalised tags of the found
categories, plus `"sales"` when any cleaned code is unmapped. -/
def detTags (reg : List RegEntry) (cleaned : List String) : List String :=
  if unmappedCodes reg cleaned ≠ [] then
    dedupAppend
      (pyDedup ((catsFound reg cleaned).map
        (fun c => _normalize_category_to_order_type (some c)))) "sales"
  else
    pyDedup ((catsFound reg cleaned).map
      (fun c => _normalize_category_to_order_type (some c)))

/-- The final `categories_found` set (lines 73–81): raw categories plus
`"sales"` when any cleaned code is unmapped. -/
def detCats (reg : List RegEntry) (cleaned : List String) : List String :=
  if unmappedCodes reg cleaned ≠ [] then dedupAppend (catsFound reg cleaned) "sales"
  else catsFound reg cleaned

/-- The detector's return value: the order type, the category list, and the
`mapping_info` dict. -/
structure DetectResult where
  order_type : String
  categories : List String
  mapped : List (String × String)
  unmapped : List String
  categories_found : List String
  order_types_found : List String
deriving DecidableEq

/-- `determine_order_type_from_codes` (order_type_detector.py 14–106),
abstracted over the registry table it queries. -/
def determine_order_type_from_codes (item_codes : List String)
    (reg : List RegEntry) : DetectResult :=
  if item_codes = [] then ⟨"unspecified", [], [], [], [], []⟩
  else if cleanedCodes item_codes = [] then ⟨"sales", [], [], [], [], []⟩
  else
    match detTags reg (cleanedCodes item_codes) with
    | [] =>
      ⟨"sales", ["sales"],
        codeToCategory (foundEntries reg (cleanedCodes item_codes)),
        unmappedCodes reg (cleanedCodes item_codes),
        ["sales"],
        pySorted (detTags reg (cleanedCodes item_codes))⟩
    | [t] =>
      ⟨t, pySorted (detCats reg (cleanedCodes item_codes)),
        codeToCategory (foundEntries reg (cleanedCodes item_codes)),
        unmappedCodes reg (cleanedCodes item_codes),
        pySorted (detCats reg (cleanedCodes item_codes)),
        pySorted (detTags reg (cleanedCodes item_codes))⟩
    | _ :: _ :: _ =>
      ⟨"mixed", pySorted (detCats reg (cleanedCodes item_codes)),
        codeToCategory (foundEntries reg (cleanedCodes item_codes)),
        unmappedCodes reg (cleanedCodes item_codes),
        pySorted (detCats reg (cleanedCodes item_codes)),
        pySorted (detTags reg (cleanedCodes item_codes))⟩

/-! ## Per-code classification and the upload pipeline
(`views_invoice_upload.py` 113–172, `views_invoice.py` 545–588) -/

/-- The per-code info dict of `_get_item_code_categories`. -/
structure CodeInfo where
  category : String
  order_type : String
  color_class : String
deriving DecidableEq

/-- The badge colour map of `_get_item_code_categories` (lines 150–154). -/
def colorFor (ot : String) : String :=
  if ot = "labour" then "badge-labour"
  else if ot = "service" then "badge-service"
  else if ot = "sales" then "badge-sales"
  else "badge-secondary"

/-- `_get_item_code_categories` (views_invoice_upload.py 113–172): found
codes map to their category's normalised order type, unmapped cleaned codes
are added as `{'Sales', 'sales'}`. -/
def _get_item_code_categories (item_codes : List String)
    (reg : List RegEntry) : List (String × CodeInfo) :=
  if item_codes = [] then []
  else if cleanedCodes item_codes = [] then []
  else
    (unmappedCodes reg (cleanedCodes item_codes)).foldl
      (fun d c => dictInsert d c ⟨"Sales", "sales", "badge-sales"⟩)
      ((foundEntries reg (cleanedCodes item_codes)).foldl
        (fun d e =>
          dictInsert d e.code
            ⟨e.category, _normalize_category_to_order_type (some e.category),
              colorFor (_normalize_category_to_order_type (some e.category))⟩)
        [])

/-- A persisted `InvoiceLineItem` as written by the upload pipeline. -/
structure LineItem where
  code : Option String
  description : String
  quantity : ℚ
  unit : Option String
  unit_price : ℚ
  line_total : ℚ
  tax_amount : ℚ
  order_type : String
deriving DecidableEq

/-- The truthy code of an aggregated entry
(`[it.get('code') for it in aggregated if it.get('code')]`). -/
def truthyCode (e : AggItem) : Option String :=
  match e.code with
  | some c => if c = "" then none else some c
  | none => none

/-- One `InvoiceLineItem(...)` of the creation loop (views_invoice.py
562–585): qty and price re-read with falsy fallbacks, `line_total = qty *
price`, and `order_type` from the code map only when the entry has a truthy
code — otherwise the default `'unspecified'`. -/
def mkLineItem (cot : List (String × CodeInfo)) (e : AggItem) : LineItem :=
  { code := truthyCode e
    description := if e.description = "" then "Item" else e.description
    quantity := if e.qty = 0 then 1 else e.qty
    unit := e.unit
    unit_price := e.unit_price
    line_total := (if e.qty = 0 then 1 else e.qty) * e.unit_price
    tax_amount := 0
    order_type :=
      match truthyCode e with
      | some c =>
        (match dictGet cot c with
          | some info => info.order_type
          | none => "unspecified")
      | none => "unspecified" }

/-- The line-item construction of `api_upload_extract_invoice`
(views_invoice.py 545–588): aggregate, look up the truthy codes, build the
rows. -/
def buildLineItems (items : List RawItem) (reg : List RegEntry) : List LineItem :=
  (if items = [] then [] else _aggregate_items items).map
    (mkLineItem
      (_get_item_code_categories
        ((if items = [] then [] else _aggregate_items items).filterMap truthyCode)
        reg))

/-- The invoice-level detector invocation (views_invoice_upload.py 975–993):
the detector receives the sorted set of truthy line-item codes (the
`codes`-empty branch calls it with `[]`, which coincides). -/
def invoiceDetect (lis : List LineItem) (reg : List RegEntry) : DetectResult :=
  determine_order_type_from_codes
    (pySorted (pyDedup (lis.filterMap (fun li =>
      match li.code with
      | some c => if c = "" then none else some c
      | none => none))))
    reg

/-! ## Revenue attribution (`revenue_utils.py` 62–91) -/

/-- A persisted line item as read back by the revenue report; `order_type`
`""` models a null/empty stored tag. -/
structure RevLineItem where
  order_type : String
  line_total : ℚ
  tax_amount : ℚ
deriving DecidableEq

/-- The `result` dict of `get_revenue_by_order_type`: four revenue buckets
plus the `total` and `count` bookkeeping keys. -/
structure RevBucket where
  sales : ℚ
  service : ℚ
  labour : ℚ
  unknown : ℚ
  total : ℚ
  count : ℚ
deriving DecidableEq

/-- One iteration of the summation loop (lines 73–81):
`order_type = item.order_type or 'unknown'`, `line_value = line_total +
tax_amount if tax_amount else line_total`, then `result[order_type] += ...`
when `order_type` is a key of the `result` dict — which also has `'total'`
and `'count'` keys — else `result['unknown'] += ...`. -/
def revStep (r : RevBucket) (item : RevLineItem) : RevBucket :=
  if (if item.order_type = "" then "unknown" else item.order_type) = "sales" then
    { r with sales := r.sales + (if item.tax_amount ≠ 0 then item.line_total + item.tax_amount else item.line_total) }
  else if (if item.order_type = "" then "unknown" else item.order_type) = "service" then
    { r with service := r.service + (if item.tax_amount ≠ 0 then item.line_total + item.tax_amount else item.line_total) }
  else if (if item.order_type = "" then "unknown" else item.order_type) = "labour" then
    { r with labour := r.labour + (if item.tax_amount ≠ 0 then item.line_total + item.tax_amount else item.line_total) }
  else if (if item.order_type = "" then "unknown" else item.order_type) = "unknown" then
    { r with unknown := r.unknown + (if item.tax_amount ≠ 0 then item.line_total + item.tax_amount else item.line_total) }
  else if (if item.order_type = "" then "unknown" else item.order_type) = "total" then
    { r with total := r.total + (if item.tax_amount ≠ 0 then item.line_total + item.tax_amount else item.line_total) }
  else if (if item.order_type = "" then "unknown" else item.order_type) = "count" then
    { r with count := r.count + (if item.tax_amount ≠ 0 then item.line_total + item.tax_amount else item.line_total) }
  else
    { r with unknown := r.unknown + (if item.tax_amount ≠ 0 then item.line_total + item.tax_amount else item.line_total) }

/-- The line-item part of `get_revenue_by_order_type` (revenue_utils.py
62–91): start from zero buckets with the invoice count, fold the loop, then
overwrite `total` with the sum of the four buckets. -/
def get_revenue_by_order_type (items : List RevLineItem) (invoiceCount : ℚ) : RevBucket :=
  { items.foldl revStep ⟨0, 0, 0, 0, 0, invoiceCount⟩ with
    total :=
      (items.foldl revStep ⟨0, 0, 0, 0, 0, invoiceCount⟩).sales
      + (items.foldl revStep ⟨0, 0, 0, 0, 0, invoiceCount⟩).service
      + (items.foldl revStep ⟨0, 0, 0, 0, 0, invoiceCount⟩).labour
      + (items.foldl revStep ⟨0, 0, 0, 0, 0, invoiceCount⟩).unknown }

/-! ## Derived grouping functions

`_aggregate_items` works by a single left fold over the items; the claims
speak about "groups".  The following functions recompute a group's content
directly from the member items sharing one key; the theorems below prove the
fold agrees with them. -/

/-- The items of `items` that fall into the bucket entry keyed `k`. -/
def groupItems (items : List RawItem) (k : String) : List RawItem :=
  items.filter (fun it => pyKey it = k)

/-- The bucket entry produced by folding a non-empty group `g0 :: gs`:
initialisation from the first member, then accumulation of every member. -/
def groupOf (g0 : RawItem) (gs : List RawItem) : Group :=
  gs.foldl addItem (addItem (emptyGroup g0) g0)

/-- The final qty of a group recomputed from its members: the sum of the
coerced quantities, clamped to `1` when non-positive. -/
def qtyRule (gs : List RawItem) : ℚ :=
  if 0 < (gs.map (fun it => coerceQty it.qty)).sum then
    (gs.map (fun it => coerceQty it.qty)).sum
  else 1

/-- The final unit price of a group recomputed from its members: the mean of
the collected (truthy, parseable, nonzero) rates when any, else the sum of
the collected values over the clamped qty, else `0`. -/
def upRule (gs : List RawItem) : ℚ :=
  if gs.filterMap (fun it => collectNum it.rate) ≠ [] then
    (gs.filterMap (fun it => collectNum it.rate)).sum
      / ((gs.filterMap (fun it => collectNum it.rate)).length : ℚ)
  else if gs.filterMap (fun it => collectNum it.value) ≠ [] then
    (gs.filterMap (fun it => collectNum it.value)).sum / qtyRule gs
  else 0

/-- Modelled from the claim's words (C6): "all non-null rate values and all
non-null value values are collected separately" — a non-null field is one
that is present and parses, `0` included.  Used only to exhibit where the
code's truthiness-based collection departs from this reading. -/
def specNonNull : RawNum → Option ℚ
  | RawNum.val q => some q
  | _ => none

/-- Modelled from the claim's words (C6): the unit-price rule with the
"all non-null values collected" reading. -/
def claimedUpRule (gs : List RawItem) : ℚ :=
  if gs.filterMap (fun it => specNonNull it.rate) ≠ [] then
    (gs.filterMap (fun it => specNonNull it.rate)).sum
      / ((gs.filterMap (fun it => specNonNull it.rate)).length : ℚ)
  else if gs.filterMap (fun it => specNonNull it.value) ≠ [] then
    (gs.filterMap (fun it => specNonNull it.value)).sum / qtyRule gs
  else 0

/-! ## Concrete inputs used by the claims -/

/-- The end-to-end scenario's extracted items: a coded labour line with a
`value`, and a codeless parts line with a `rate`. -/
def scenarioItems : List RawItem :=
  [{ code := some "L100", description := some "Oil filter replace",
     qty := RawNum.val 1, value := RawNum.val 50000 },
   { code := none, description := some "Tire X",
     qty := RawNum.val 2, rate := RawNum.val 75000 }]

/-- The end-to-end scenario's registry: exactly `L100 → labour`. -/
def scenarioReg : List RegEntry := [⟨"L100", "labour", true⟩]

/-- A one-item input whose aggregation has a nonzero unit price. -/
def reaggItems : List RawItem := [{ code := some "A", rate := RawNum.val 10 }]

/-- Two same-code items: one with only a rate, one with only a value. -/
def ratePairItems : List RawItem :=
  [{ code := some "A", rate := RawNum.val 10 },
   { code := some "A", qty := RawNum.val 3, value := RawNum.val 30 }]

/-- Two same-code items, rates `"0"` and `10` (both are non-null raw rates;
the first parses to zero). -/
def rateZeroItems : List RawItem :=
  [{ code := some "A", rate := RawNum.val 0 },
   { code := some "A", rate := RawNum.val 10 }]

/-- Two same-code items with quantities `3` and `-5`. -/
def negQtyItems : List RawItem :=
  [{ code := some "A", qty := RawNum.val 3 },
   { code := some "A", qty := RawNum.val (-5) }]

/-- Two same-code items with distinct units, in either order. -/
def unitPermA : List RawItem :=
  [{ code := some "A", unit := some "PCS" }, { code := some "A", unit := some "HR" }]

/-- The same two items, swapped. -/
def unitPermB : List RawItem :=
  [{ code := some "A", unit := some "HR" }, { code := some "A", unit := some "PCS" }]

/-- Two items with no code and no description. -/
def blankPairItems : List RawItem :=
  [{ qty := RawNum.val 2 }, { description := some "", qty := RawNum.val 3 }]

/-! ## Association-list (bucket) lemmas -/

theorem lookupA_append (b₁ b₂ : List (String × Group)) (k : String) :
    lookupA (b₁ ++ b₂) k =
      match lookupA b₁ k with
      | some g => some g
      | none => lookupA b₂ k := by
  induction b₁ with
  | nil => simp [lookupA]
  | cons kg rest ih =>
    by_cases h : kg.1 = k
    · simp [lookupA, h]
    · simpa [lookupA, h] using ih

theorem lookupA_updateA_self (f : Group → Group) (b : List (String × Group)) (k : String) :
    lookupA (updateA f b k) k = Option.map f (lookupA b k) := by
  induction b with
  | nil => simp [lookupA, updateA]
  | cons kg rest ih =>
    by_cases h : kg.1 = k
    · simp [lookupA, updateA, h]
    · simpa [lookupA, updateA, h] using ih

theorem lookupA_updateA_ne (f : Group → Group) (b : List (String × Group))
    (k k' : String) (h : k' ≠ k) :
    lookupA (updateA f b k) k' = lookupA b k' := by
  induction b with
  | nil => simp [lookupA, updateA]
  | cons kg rest ih =>
    rcases kg with ⟨k0, g0⟩
    by_cases hk : k0 = k
    · subst hk
      simp [lookupA, updateA, Ne.symm h]
    · by_cases hk' : k0 = k'
      · simp [lookupA, updateA, hk, hk', h]
      · simp [lookupA, updateA, hk, hk', ih]

theorem updateA_map_fst (f : Group → Group) (b : List (String × Group)) (k : String) :
    (updateA f b k).map Prod.fst = b.map Prod.fst := by
  induction b with
  | nil => simp [updateA]
  | cons kg rest ih =>
    by_cases h : kg.1 = k
    · simp [updateA, h]
    · simpa [updateA, h] using ih

theorem lookupA_eq_none_iff (b : List (String × Group)) (k : String) :
    lookupA b k = none ↔ k ∉ b.map Prod.fst := by
  induction b with
  | nil => simp [lookupA]
  | cons kg rest ih =>
    by_cases h : kg.1 = k
    · simp [lookupA, h]
    · simp [lookupA, h, ih, Ne.symm h]

theorem groupItems_cons (it : RawItem) (rest : List RawItem) (k : String) :
    groupItems (it :: rest) k =
      if pyKey it = k then it :: groupItems rest k else groupItems rest k := by
  by_cases h : pyKey it = k <;> simp [groupItems, List.filter_cons, h]

theorem lookupA_stepBucket_same (b : List (String × Group)) (it : RawItem) :
    lookupA (stepBucket b it) (pyKey it) =
      some (addItem
        (match lookupA b (pyKey it) with
          | some g => g
          | none => emptyGroup it) it) := by
  cases hb : lookupA b (pyKey it) with
  | some g => simp [stepBucket, hb, lookupA_updateA_self]
  | none =>
    simp only [stepBucket, hb, lookupA_updateA_self, lookupA_append, hb]
    simp [lookupA]

theorem lookupA_stepBucket_ne (b : List (String × Group)) (it : RawItem)
    (k : String) (h : k ≠ pyKey it) :
    lookupA (stepBucket b it) k = lookupA b k := by
  cases hb : lookupA b (pyKey it) with
  | some g => simp [stepBucket, hb, lookupA_updateA_ne _ _ _ _ h]
  | none =>
    rw [stepBucket, hb, lookupA_updateA_ne _ _ _ _ h, lookupA_append]
    cases hk : lookupA b k with
    | some g => simp
    | none => simp [lookupA, Ne.symm h]

theorem lookupA_foldl (k : String) (items : List RawItem) :
    ∀ b : List (String × Group),
      lookupA (items.foldl stepBucket b) k =
        match lookupA b k, groupItems items k with
        | some g, gs => some (gs.foldl addItem g)
        | none, [] => none
        | none, g0 :: gs => some (groupOf g0 gs) := by
  induction items with
  | nil =>
    intro b
    cases hb : lookupA b k <;> simp [groupItems, hb]
  | cons it rest ih =>
    intro b
    rw [List.foldl_cons, ih (stepBucket b it)]
    by_cases hk : pyKey it = k
    · subst hk
      rw [lookupA_stepBucket_same, groupItems_cons]
      cases hb : lookupA b (pyKey it) with
      | some g => simp [groupOf]
      | none => simp [groupOf]
    · rw [lookupA_stepBucket_ne _ _ _ (fun hh => hk hh.symm), groupItems_cons, if_neg hk]

theorem lookupA_runBucket (items : List RawItem) (k : String) :
    lookupA (runBucket items) k =
      match groupItems items k with
      | [] => none
      | g0 :: gs => some (groupOf g0 gs) := by
  rw [runBucket, lookupA_foldl]
  cases hg : groupItems items k with
  | nil => simp [lookupA, hg]
  | cons g0 gs => simp [lookupA, hg]

/-! ## Field content of a folded group -/

theorem foldl_addItem_qty (gs : List RawItem) :
    ∀ g : Group, (gs.foldl addItem g).qty = g.qty + (gs.map (fun it => coerceQty it.qty)).sum := by
  induction gs with
  | nil => intro g; simp
  | cons it rest ih =>
    intro g
    rw [List.foldl_cons, ih (addItem g it)]
    simp [addItem, add_assoc]

theorem foldl_addItem_rates (gs : List RawItem) :
    ∀ g : Group, (gs.foldl addItem g).rates = g.rates ++ gs.filterMap (fun it => collectNum it.rate) := by
  induction gs with
  | nil => intro g; simp
  | cons it rest ih =>
    intro g
    rw [List.foldl_cons, ih (addItem g it)]
    cases h : collectNum it.rate <;> simp [addItem, h, List.filterMap_cons]

theorem foldl_addItem_values (gs : List RawItem) :
    ∀ g : Group, (gs.foldl addItem g).values = g.values ++ gs.filterMap (fun it => collectNum it.value) := by
  induction gs with
  | nil => intro g; simp
  | cons it rest ih =>
    intro g
    rw [List.foldl_cons, ih (addItem g it)]
    cases h : collectNum it.value <;> simp [addItem, h, List.filterMap_cons]

theorem foldl_addItem_code (gs : List RawItem) :
    ∀ g : Group, (gs.foldl addItem g).code = g.code := by
  induction gs with
  | nil => intro g; simp
  | cons it rest ih =>
    intro g
    rw [List.foldl_cons, ih (addItem g it)]
    simp [addItem]

theorem foldl_addItem_desc (gs : List RawItem) :
    ∀ g : Group, (gs.foldl addItem g).description = g.description := by
  induction gs with
  | nil => intro g; simp
  | cons it rest ih =>
    intro g
    rw [List.foldl_cons, ih (addItem g it)]
    simp [addItem]

theorem foldl_addItem_unit (gs : List RawItem) :
    ∀ g : Group, (gs.foldl addItem g).unit =
      match g.unit with
      | some u => some u
      | none => (gs.filterMap pyUnit).head? := by
  induction gs with
  | nil =>
    intro g
    cases hu : g.unit <;> simp [hu]
  | cons it rest ih =>
    intro g
    rw [List.foldl_cons, ih (addItem g it)]
    cases hu : g.unit with
    | some u => simp [addItem, hu]
    | none =>
      cases hi : pyUnit it <;> simp [addItem, hu, hi, List.filterMap_cons]

theorem groupOf_qty (g0 : RawItem) (gs : List RawItem) :
    (groupOf g0 gs).qty = ((g0 :: gs).map (fun it => coerceQty it.qty)).sum := by
  rw [groupOf, foldl_addItem_qty]
  simp [addItem, emptyGroup]

theorem groupOf_rates (g0 : RawItem) (gs : List RawItem) :
    (groupOf g0 gs).rates = (g0 :: gs).filterMap (fun it => collectNum it.rate) := by
  rw [groupOf, foldl_addItem_rates]
  cases h : collectNum g0.rate <;> simp [addItem, emptyGroup, h, List.filterMap_cons]

theorem groupOf_values (g0 : RawItem) (gs : List RawItem) :
    (groupOf g0 gs).values = (g0 :: gs).filterMap (fun it => collectNum it.value) := by
  rw [groupOf, foldl_addItem_values]
  cases h : collectNum g0.value <;> simp [addItem, emptyGroup, h, List.filterMap_cons]

theorem groupOf_code (g0 : RawItem) (gs : List RawItem) :
    (groupOf g0 gs).code = (if pyCodeStr g0 = "" then none else some (pyCodeStr g0)) := by
  rw [groupOf, foldl_addItem_code]
  simp [addItem, emptyGroup]

theorem groupOf_desc (g0 : RawItem) (gs : List RawItem) :
    (groupOf g0 gs).description = pyDesc g0 := by
  rw [groupOf, foldl_addItem_desc]
  simp [addItem, emptyGroup]

theorem finalizeGroup_groupOf_qty (g0 : RawItem) (gs : List RawItem) :
    (finalizeGroup (groupOf g0 gs)).qty = qtyRule (g0 :: gs) := by
  simp [finalizeGroup, qtyRule, groupOf_qty]

theorem finalizeGroup_up_eq (g : Group) :
    (finalizeGroup g).unit_price =
      if g.rates ≠ [] then g.rates.sum / (g.rates.length : ℚ)
      else if g.values ≠ [] then g.values.sum / (if 0 < g.qty then g.qty else 1)
      else 0 := by
  simp only [finalizeGroup]
  by_cases hr : g.rates = []
  · by_cases hv : g.values = []
    · simp [hr, hv]
    · have hfq : (0 : ℚ) < (if 0 < g.qty then g.qty else 1) := by
        by_cases hq : 0 < g.qty
        · simp [hq]
        · simp [hq]
      simp [hr, hv, hfq]
  · simp [hr]

theorem finalizeGroup_groupOf_up (g0 : RawItem) (gs : List RawItem) :
    (finalizeGroup (groupOf g0 gs)).unit_price = upRule (g0 :: gs) := by
  simp only [finalizeGroup_up_eq, upRule, qtyRule, groupOf_rates, groupOf_values, groupOf_qty]

/-! ## Bucket key order -/

theorem dedupAux_congr (l : List String) :
    ∀ s₁ s₂ : List String, (∀ x, x ∈ s₁ ↔ x ∈ s₂) → dedupAux s₁ l = dedupAux s₂ l := by
  induction l with
  | nil => intro s₁ s₂ _; simp [dedupAux]
  | cons x xs ih =>
    intro s₁ s₂ h
    by_cases hx : x ∈ s₁
    · simp [dedupAux, hx, (h x).mp hx, ih s₁ s₂ h]
    · have hx₂ : x ∉ s₂ := fun hc => hx ((h x).mpr hc)
      have hsub : ∀ y, y ∈ x :: s₁ ↔ y ∈ x :: s₂ := by
        intro y
        simp [h y]
      simp [dedupAux, hx, hx₂, ih (x :: s₁) (x :: s₂) hsub]

theorem mem_dedupAux (l : List String) :
    ∀ (seen : List String) (x : String), x ∈ dedupAux seen l ↔ (x ∈ l ∧ x ∉ seen) := by
  induction l with
  | nil => intro seen x; simp [dedupAux]
  | cons y ys ih =>
    intro seen x
    by_cases hy : y ∈ seen
    · rw [dedupAux, if_pos hy, ih]
      constructor
      · rintro ⟨hx, hs⟩
        exact ⟨List.mem_cons_of_mem _ hx, hs⟩
      · rintro ⟨hx, hs⟩
        rcases List.mem_cons.mp hx with h | h
        · exact absurd (h ▸ hy) hs
        · exact ⟨h, hs⟩
    · rw [dedupAux, if_neg hy]
      constructor
      · intro hx
        rcases List.mem_cons.mp hx with h | h
        · subst h
          exact ⟨List.mem_cons_self _ _, hy⟩
        · rcases (ih (y :: seen) x).mp h with ⟨h1, h2⟩
          refine ⟨List.mem_cons_of_mem _ h1, fun hc => h2 (List.mem_cons_of_mem _ hc)⟩
      · rintro ⟨hx, hs⟩
        rcases List.mem_cons.mp hx with h | h
        · exact h ▸ List.mem_cons_self _ _
        · by_cases hxy : x = y
          · exact hxy ▸ List.mem_cons_self _ _
          · exact List.mem_cons_of_mem _ ((ih (y :: seen) x).mpr
              ⟨h, fun hc => (List.mem_cons.mp hc).elim hxy hs⟩)

theorem mem_pyDedup (l : List String) (x : String) : x ∈ pyDedup l ↔ x ∈ l := by
  simp [pyDedup, mem_dedupAux]

theorem mem_dedupAppend (l : List String) (a x : String) :
    x ∈ dedupAppend l a ↔ (x ∈ l ∨ x = a) := by
  by_cases h : a ∈ l
  · constructor
    · intro hx
      exact Or.inl (by simpa [dedupAppend, h] using hx)
    · rintro (hx | hx)
      · simpa [dedupAppend, h] using hx
      · simp [dedupAppend, h, hx]
  · simp [dedupAppend, h]

theorem stepBucket_map_fst (b : List (String × Group)) (it : RawItem) :
    (stepBucket b it).map Prod.fst =
      if pyKey it ∈ b.map Prod.fst then b.map Prod.fst
      else b.map Prod.fst ++ [pyKey it] := by
  cases hb : lookupA b (pyKey it) with
  | some g =>
    have hm : pyKey it ∈ b.map Prod.fst := by
      by_contra hc
      rw [(lookupA_eq_none_iff b (pyKey it)).mpr hc] at hb
      cases hb
    simp [stepBucket, hb, updateA_map_fst, hm]
  | none =>
    have hm : pyKey it ∉ b.map Prod.fst := (lookupA_eq_none_iff b (pyKey it)).mp hb
    simp [stepBucket, hb, updateA_map_fst, hm]

theorem foldl_map_fst (items : List RawItem) :
    ∀ b : List (String × Group),
      (items.foldl stepBucket b).map Prod.fst =
        b.map Prod.fst ++ dedupAux (b.map Prod.fst) (items.map pyKey) := by
  induction items with
  | nil => intro b; simp [dedupAux]
  | cons it rest ih =>
    intro b
    rw [List.foldl_cons, ih (stepBucket b it), stepBucket_map_fst]
    by_cases hm : pyKey it ∈ b.map Prod.fst
    · rw [if_pos hm, List.map_cons, dedupAux, if_pos hm]
    · rw [if_neg hm, List.map_cons, dedupAux, if_neg hm, List.append_assoc]
      have hcongr : dedupAux (b.map Prod.fst ++ [pyKey it]) (rest.map pyKey)
          = dedupAux (pyKey it :: b.map Prod.fst) (rest.map pyKey) := by
        apply dedupAux_congr
        intro x
        simp [or_comm]
      rw [hcongr]
      simp

theorem keys_runBucket (items : List RawItem) :
    (runBucket items).map Prod.fst = pyDedup (items.map pyKey) := by
  rw [runBucket, foldl_map_fst]
  simp [pyDedup]

/-! ## Invariant preservation for re-aggregation -/

theorem mem_updateA (P : Group → Prop) (f : Group → Group) (k : String)
    (b : List (String × Group)) (hb : ∀ kg ∈ b, P kg.2) (hf : ∀ g, P g → P (f g)) :
    ∀ kg ∈ updateA f b k, P kg.2 := by
  induction b with
  | nil => simp [updateA]
  | cons kg0 rest ih =>
    intro kg hkg
    rw [updateA] at hkg
    by_cases hk : kg0.1 = k
    · rw [if_pos hk] at hkg
      rcases List.mem_cons.mp hkg with h | h
      · subst h
        exact hf _ (hb kg0 (List.mem_cons_self _ _))
      · exact hb kg (List.mem_cons_of_mem _ h)
    · rw [if_neg hk] at hkg
      rcases List.mem_cons.mp hkg with h | h
      · subst h
        exact hb kg0 (List.mem_cons_self _ _)
      · exact ih (fun kg' hkg' => hb kg' (List.mem_cons_of_mem _ hkg')) kg h

theorem runBucket_no_prices (items : List RawItem)
    (h : ∀ it ∈ items, collectNum it.rate = none ∧ collectNum it.value = none) :
    ∀ kg ∈ runBucket items, kg.2.rates = [] ∧ kg.2.values = [] := by
  rw [runBucket]
  have main : ∀ (its : List RawItem) (b : List (String × Group)),
      (∀ it ∈ its, collectNum it.rate = none ∧ collectNum it.value = none) →
      (∀ kg ∈ b, kg.2.rates = [] ∧ kg.2.values = []) →
      ∀ kg ∈ its.foldl stepBucket b, kg.2.rates = [] ∧ kg.2.values = [] := by
    intro its
    induction its with
    | nil => intro b _ hb; simpa using hb
    | cons it rest ih =>
      intro b hits hb
      rw [List.foldl_cons]
      refine ih (stepBucket b it) (fun x hx => hits x (List.mem_cons_of_mem _ hx)) ?_
      have hit := hits it (List.mem_cons_self _ _)
      have hstep : ∀ g : Group, (g.rates = [] ∧ g.values = []) →
          ((addItem g it).rates = [] ∧ (addItem g it).values = []) := by
        rintro g ⟨h1, h2⟩
        simp [addItem, h1, h2, hit.1, hit.2]
      cases hb' : lookupA b (pyKey it) with
      | some g =>
        rw [stepBucket, hb']
        exact mem_updateA _ _ _ _ hb hstep
      | none =>
        rw [stepBucket, hb']
        refine mem_updateA _ _ _ _ ?_ hstep
        intro kg hkg
        rcases List.mem_append.mp hkg with hm | hm
        · exact hb kg hm
        · rcases List.mem_singleton.mp hm with rfl
          simp [emptyGroup]
  exact main items [] h (by simp)

/-! ## Detector support lemmas -/

theorem normCat_cases (co : Option String) :
    _normalize_category_to_order_type co = "labour"
    ∨ _normalize_category_to_order_type co = "service"
    ∨ _normalize_category_to_order_type co = "unspecified" := by
  cases co with
  | none => simp [_normalize_category_to_order_type]
  | some c =>
    rw [_normalize_category_to_order_type]
    split_ifs <;> simp

theorem mem_detTags (reg : List RegEntry) (cleaned : List String) (x : String)
    (hx : x ∈ detTags reg cleaned) :
    x = "labour" ∨ x = "service" ∨ x = "unspecified" ∨ x = "sales" := by
  rw [detTags] at hx
  have base : ∀ y, y ∈ pyDedup ((catsFound reg cleaned).map
      (fun c => _normalize_category_to_order_type (some c))) →
      y = "labour" ∨ y = "service" ∨ y = "unspecified" := by
    intro y hy
    rw [mem_pyDedup] at hy
    rcases List.mem_map.mp hy with ⟨c, _, hc⟩
    exact hc ▸ normCat_cases (some c)
  by_cases hu : unmappedCodes reg cleaned ≠ []
  · rw [if_pos hu, mem_dedupAppend] at hx
    rcases hx with h | h
    · rcases base x h with h' | h' | h' <;> simp [h']
    · simp [h]
  · rw [if_neg hu] at hx
    rcases base x hx with h' | h' | h' <;> simp [h']

theorem detTags_nil (reg : List RegEntry) : detTags reg [] = [] := by
  have hfound : foundEntries reg [] = [] := by
    simp [foundEntries, List.contains]
  simp [detTags, unmappedCodes, catsFound, hfound, pyDedup, dedupAux]

/-! ## Miscellaneous list lemmas -/

theorem dedupAux_of_subset (l : List String) :
    ∀ seen : List String, (∀ x ∈ l, x ∈ seen) → dedupAux seen l = [] := by
  induction l with
  | nil => intro seen _; simp [dedupAux]
  | cons y ys ih =>
    intro seen h
    rw [dedupAux, if_pos (h y (List.mem_cons_self _ _))]
    exact ih seen (fun x hx => h x (List.mem_cons_of_mem _ hx))

theorem pyDedup_const (l : List String) (a : String) (hne : l ≠ [])
    (h : ∀ x ∈ l, x = a) : pyDedup l = [a] := by
  cases l with
  | nil => exact absurd rfl hne
  | cons y ys =>
    have hy : y = a := h y (List.mem_cons_self _ _)
    subst hy
    rw [pyDedup, dedupAux, if_neg (by simp)]
    have : dedupAux [y] ys = [] := by
      apply dedupAux_of_subset
      intro x hx
      simp [h x (List.mem_cons_of_mem _ hx)]
    rw [this]

theorem bucket_of_single_key (b : List (String × Group)) (k : String)
    (h : b.map Prod.fst = [k]) : ∃ g, b = [(k, g)] := by
  cases b with
  | nil => simp at h
  | cons kg rest =>
    cases rest with
    | nil =>
      rcases kg with ⟨k0, g0⟩
      simp only [List.map_cons, List.map_nil, List.cons.injEq, and_true] at h
      exact ⟨g0, by simp [h]⟩
    | cons kg' rest' => simp at h

theorem sum_pos_of_forall_pos (l : List ℚ) (hne : l ≠ []) (h : ∀ x ∈ l, 0 < x) :
    0 < l.sum := by
  cases l with
  | nil => exact absurd rfl hne
  | cons x xs =>
    rw [List.sum_cons]
    have hx := h x (List.mem_cons_self _ _)
    have hxs : 0 ≤ xs.sum := by
      apply List.sum_nonneg
      intro y hy
      exact le_of_lt (h y (List.mem_cons_of_mem _ hy))
    linarith

/-! ## Claim theorems -/

/-- C1, counterexample: on the end-to-end scenario the pipeline classifies
the codeless second line item as `unspecified`, not `sales`, and the
invoice-level detector — which only ever receives the non-empty codes —
returns `labour`, not `mixed`. -/
theorem upload_scenario_counterexample :
    (buildLineItems scenarioItems scenarioReg).map LineItem.order_type
      = ["labour", "unspecified"]
    ∧ (buildLineItems scenarioItems scenarioReg).map LineItem.order_type
      ≠ ["labour", "sales"]
    ∧ (invoiceDetect (buildLineItems scenarioItems scenarioReg) scenarioReg).order_type
      = "labour"
    ∧ (invoiceDetect (buildLineItems scenarioItems scenarioReg) scenarioReg).order_type
      ≠ "mixed" := by decide

/-- C1, amended: the scenario aggregates to 2 line items with line totals
50000 and 150000; the first (code `L100`) is classified `labour`, the second
(codeless) keeps the default `unspecified`; the invoice-level detector
receives only `["L100"]` and returns order type `labour` with categories
`["labour"]`. -/
theorem upload_scenario_amended :
    (buildLineItems scenarioItems scenarioReg).length = 2
    ∧ (buildLineItems scenarioItems scenarioReg).map
        (fun li => (li.order_type, li.line_total))
      = [("labour", (50000 : ℚ)), ("unspecified", 150000)]
    ∧ invoiceDetect (buildLineItems scenarioItems scenarioReg) scenarioReg
      = ⟨"labour", ["labour"], [("L100", "labour")], [], ["labour"], ["labour"]⟩ := by
  decide

/-- C2, counterexample: re-aggregating the aggregator's own output is not a
no-op — the output of `_aggregate_items` carries its price under
`unit_price`, which a second aggregation pass does not read, so the price
collapses from 10 to 0. -/
theorem aggregate_not_idempotent :
    _aggregate_items ((_aggregate_items reaggItems).map aggToRaw)
      ≠ _aggregate_items reaggItems
    ∧ (_aggregate_items reaggItems).map AggItem.unit_price = [10]
    ∧ (_aggregate_items ((_aggregate_items reaggItems).map aggToRaw)).map
        AggItem.unit_price = [0] := by decide

/-- C2, amended: for every input, every entry of
`aggregate (aggregate items)` has `unit_price = 0`, because the aggregator
reads prices only from the `rate`/`value` keys and its own output carries
neither; so re-aggregation is a no-op only on inputs whose aggregated unit
prices are all zero. -/
theorem reaggregation_zeroes_unit_price (items : List RawItem) :
    ∀ e ∈ _aggregate_items ((_aggregate_items items).map aggToRaw),
      e.unit_price = 0 := by
  intro e he
  have hnone : ∀ it ∈ (_aggregate_items items).map aggToRaw,
      collectNum it.rate = none ∧ collectNum it.value = none := by
    intro it hit
    rcases List.mem_map.mp hit with ⟨e', _, rfl⟩
    simp [aggToRaw, collectNum]
  rcases List.mem_map.mp he with ⟨kg, hkg, rfl⟩
  rcases runBucket_no_prices _ hnone kg hkg with ⟨h1, h2⟩
  simp [finalizeGroup, h1, h2]

/-- C2 witness: the amended statement evaluated on the concrete one-item
input. -/
theorem reaggregation_zeroes_unit_price_witness :
    (⟨some "A", "Item", 1, none, 0⟩ : AggItem) ∈
      _aggregate_items ((_aggregate_items reaggItems).map aggToRaw)
    ∧ (⟨some "A", "Item", 1, none, 0⟩ : AggItem).unit_price = 0 :=
  ⟨by decide, reaggregation_zeroes_unit_price reaggItems _ (by decide)⟩

/-- C4, counterexample: `detect(["   "])` does NOT clean to the empty list —
the truthiness filter runs before stripping, so the entry survives as `""`,
IS looked up in the registry, and comes back as unmapped/sales with
`categories = ["sales"]` and `mapping_info.unmapped = [""]`; with a registry
row for the empty code the result is even `labour`, showing the registry is
consulted. -/
theorem detector_whitespace_counterexample :
    (determine_order_type_from_codes ["   "] []).categories ≠ []
    ∧ (determine_order_type_from_codes ["   "] []).unmapped = [""]
    ∧ (determine_order_type_from_codes ["   "] [⟨"", "labour", true⟩]).order_type
      ≠ "sales" := by decide

/-- C4, amended: `detect([])` returns `unspecified`; a list of falsy entries
such as `[""]` cleans to the empty list and returns the bare
`{sales, [], empty}` result for any registry; but `["   "]` survives
cleaning as `[""]`, is looked up, and returns `sales` with categories
`["sales"]` and unmapped `[""]` (and whatever the registry maps `""` to,
when it does). -/
theorem detector_empty_whitespace_amended (reg : List RegEntry) :
    determine_order_type_from_codes [] reg
      = ⟨"unspecified", [], [], [], [], []⟩
    ∧ determine_order_type_from_codes [""] reg
      = ⟨"sales", [], [], [], [], []⟩
    ∧ determine_order_type_from_codes ["   "] []
      = ⟨"sales", ["sales"], [], [""], ["sales"], ["sales"]⟩
    ∧ (determine_order_type_from_codes ["   "] [⟨"", "labour", true⟩]).order_type
      = "labour" := by
  refine ⟨rfl, ?_, by decide, by decide⟩
  have hclean : cleanedCodes [""] = [] := by decide
  rw [determine_order_type_from_codes, if_neg (by simp), if_pos hclean]

/-- C9: the revenue loop adds each line's value to `result[order_type]`
whenever `order_type` is any key of the result dict — which also holds the
`total` and `count` bookkeeping keys.  A line item tagged `total` is
silently dropped (its bucket is overwritten by the final bucket sum) and a
line item tagged `count` corrupts the invoice count, instead of both
falling back to `unknown` as the code's own comment states; a genuinely
unrecognized tag such as `weird`, or an empty tag, does reach `unknown`. -/
theorem revenue_dict_key_bug :
    get_revenue_by_order_type [⟨"total", 100, 0⟩] 1 = ⟨0, 0, 0, 0, 0, 1⟩
    ∧ get_revenue_by_order_type [⟨"count", 100, 0⟩] 1 = ⟨0, 0, 0, 0, 0, 101⟩
    ∧ get_revenue_by_order_type [⟨"weird", 100, 0⟩] 1 = ⟨0, 0, 0, 100, 100, 1⟩
    ∧ get_revenue_by_order_type [⟨"", 100, 0⟩] 1 = ⟨0, 0, 0, 100, 100, 1⟩
    ∧ get_revenue_by_order_type [⟨"sales", 10, 2⟩, ⟨"labour", 5, 0⟩] 1
      = ⟨12, 0, 5, 0, 17, 1⟩ := by decide

/-- C3, counterexample: the detector can return `unspecified` on a
non-empty code list — a registry row whose category is the empty string
normalises to the `unspecified` tag, which then becomes the final order
type. -/
theorem detector_unspecified_nonempty_counterexample :
    (determine_order_type_from_codes ["X"] [⟨"X", "", true⟩]).order_type
      = "unspecified"
    ∧ (["X"] : List String) ≠ [] := by decide

/-- C3, amended: `order_type = "mixed"` iff the set of distinct normalised
tags (with `sales` for unmapped codes) has more than one element;
`order_type = "unspecified"` iff the input list is empty OR that tag set is
exactly `{unspecified}` (every cleaned code mapped to an empty category);
and when the tag set is exactly `{sales}` the order type is `sales`. -/
theorem detector_tag_invariant (item_codes : List String) (reg : List RegEntry) :
    ((determine_order_type_from_codes item_codes reg).order_type = "mixed"
      ↔ 1 < (detTags reg (cleanedCodes item_codes)).length)
    ∧ ((determine_order_type_from_codes item_codes reg).order_type = "unspecified"
      ↔ (item_codes = [] ∨ detTags reg (cleanedCodes item_codes) = ["unspecified"]))
    ∧ (detTags reg (cleanedCodes item_codes) = ["sales"]
      → (determine_order_type_from_codes item_codes reg).order_type = "sales") := by
  by_cases h0 : item_codes = []
  · subst h0
    have hclean : cleanedCodes [] = [] := rfl
    rw [hclean, detTags_nil]
    refine ⟨by simp [determine_order_type_from_codes], ?_, by simp⟩
    simp [determine_order_type_from_codes]
  · by_cases h1 : cleanedCodes item_codes = []
    · have htags : detTags reg (cleanedCodes item_codes) = [] := by
        rw [h1, detTags_nil]
      rw [determine_order_type_from_codes, if_neg h0, if_pos h1, htags]
      simp [h0]
    · cases htags : detTags reg (cleanedCodes item_codes) with
      | nil =>
        rw [determine_order_type_from_codes, if_neg h0, if_neg h1, htags]
        simp [h0]
      | cons t ts =>
        cases ts with
        | nil =>
          have ht : t = "labour" ∨ t = "service" ∨ t = "unspecified" ∨ t = "sales" :=
            mem_detTags reg _ t (htags ▸ List.mem_cons_self t [])
          rw [determine_order_type_from_codes, if_neg h0, if_neg h1, htags]
          refine ⟨?_, ?_, ?_⟩
          · simp only [List.length_cons, List.length_nil]
            constructor
            · intro hmix
              exfalso
              rcases ht with h' | h' | h' | h' <;> rw [h'] at hmix <;>
                exact absurd hmix (by decide)
            · intro hlt
              omega
          · simp [h0]
          · intro hts
            have hsal : t = "sales" := by
              simpa using hts
            simp [hsal]
        | cons t2 ts2 =>
          rw [determine_order_type_from_codes, if_neg h0, if_neg h1, htags]
          refine ⟨?_, ?_, ?_⟩
          · simp
          · simp [h0]
          · intro hts
            simp at hts

/-- C3 witness: the amended invariant applied at a concrete input whose tag
set is exactly `{sales}`. -/
theorem detector_tag_invariant_witness :
    detTags [] (cleanedCodes ["Z"]) = ["sales"]
    ∧ (determine_order_type_from_codes ["Z"] []).order_type = "sales" :=
  ⟨by decide, (detector_tag_invariant ["Z"] []).2.2 (by decide)⟩

/-- C5: the normaliser is total — it returns only `labour`, `service` or
`unspecified`, never raises; `None`/empty map to `unspecified`, the exact
(lower-cased, stripped) word `labour` maps to `labour`, any other string
whose lowered form contains `tyre` or `service` maps to `service`, and
every other non-empty string (including sales-like descriptions) maps to
`labour`. -/
theorem normalizer_totality :
    (∀ c : Option String,
      _normalize_category_to_order_type c = "labour"
      ∨ _normalize_category_to_order_type c = "service"
      ∨ _normalize_category_to_order_type c = "unspecified")
    ∧ _normalize_category_to_order_type none = "unspecified"
    ∧ _normalize_category_to_order_type (some "") = "unspecified"
    ∧ _normalize_category_to_order_type (some "LABOUR") = "labour"
    ∧ _normalize_category_to_order_type (some "Tyre Service") = "service"
    ∧ _normalize_category_to_order_type (some "Brake Pads") = "labour"
    ∧ (∀ s : String, s ≠ "" → pyStrip (pyLower s) = "labour" →
        _normalize_category_to_order_type (some s) = "labour")
    ∧ (∀ s : String, s ≠ "" →
        (pyContains (pyStrip (pyLower s)) "tyre"
          || pyContains (pyStrip (pyLower s)) "service") = true →
        _normalize_category_to_order_type (some s) = "service")
    ∧ (∀ s : String, s ≠ "" → pyStrip (pyLower s) ≠ "labour" →
        (pyContains (pyStrip (pyLower s)) "tyre"
          || pyContains (pyStrip (pyLower s)) "service") = false →
        _normalize_category_to_order_type (some s) = "labour") := by
  refine ⟨fun c => normCat_cases c, rfl, by decide, by decide, by decide, by decide,
    ?_, ?_, ?_⟩
  · intro s hs hl
    simp [_normalize_category_to_order_type, hs, hl]
  · intro s hs hcont
    by_cases hl : pyStrip (pyLower s) = "labour"
    · rw [hl] at hcont
      exact absurd hcont (by decide)
    · simp [_normalize_category_to_order_type, hs, hl, hcont]
  · intro s hs hl hcont
    simp [_normalize_category_to_order_type, hs, hl, hcont]

/-- C5 witness: the general mapping rules applied at concrete categories. -/
theorem normalizer_totality_witness :
    _normalize_category_to_order_type (some " Labour ") = "labour"
    ∧ _normalize_category_to_order_type (some "Wheel Service / Makill") = "service"
    ∧ _normalize_category_to_order_type (some "polishing") = "labour" :=
  ⟨(normalizer_totality).2.2.2.2.2.2.1 " Labour " (by decide) (by decide),
   (normalizer_totality).2.2.2.2.2.2.2.1 "Wheel Service / Makill" (by decide) (by decide),
   (normalizer_totality).2.2.2.2.2.2.2.2 "polishing" (by decide) (by decide) (by decide)⟩

/-- C6, counterexample: a rate that is non-null but parses to zero (e.g. the
string `"0"`) is dropped by the truthiness check, so the unit price of a
group with raw rates `"0"` and `10` is `10` — the mean of the collected
rates — while the claim's "all non-null rates" rule would give `5`. -/
theorem aggregator_zero_rate_counterexample :
    (_aggregate_items rateZeroItems).map AggItem.unit_price = [10]
    ∧ claimedUpRule (groupItems rateZeroItems "A") = 5
    ∧ ((10 : ℚ) ≠ 5) := by decide

/-- C6, amended: per group, the aggregator collects the truthy
(parseable-to-nonzero) rates and values separately; the final unit price is
the arithmetic mean of the collected rates when any exist (values ignored),
else the sum of collected values over the clamped final qty, else `0`; a
rate or value of zero counts as absent.  On the claim's two-item instance
the unit price is `10`. -/
theorem aggregator_unit_price_rule :
    (∀ (items : List RawItem) (k : String),
      (lookupA (runBucket items) k).map (fun g => (finalizeGroup g).unit_price) =
        match groupItems items k with
        | [] => none
        | g0 :: gs => some (upRule (g0 :: gs)))
    ∧ (_aggregate_items ratePairItems).map AggItem.unit_price = [10] := by
  refine ⟨?_, by decide⟩
  intro items k
  rw [lookupA_runBucket]
  cases hg : groupItems items k with
  | nil => simp
  | cons g0 gs => simp [finalizeGroup_groupOf_up]

/-- C7, counterexample: quantities are NOT clamped per item before summing —
two same-key items with quantities `3` and `-5` sum to `-2`, which the final
clamp turns into `1`, not the `4` the claim predicts. -/
theorem aggregator_negative_qty_counterexample :
    (_aggregate_items negQtyItems).map AggItem.qty = [1]
    ∧ (_aggregate_items negQtyItems).map AggItem.qty ≠ [4] := by decide

/-- C7, amended: an unparsable or falsy (absent/None/zero) qty is coerced to
`1` per item, but negative quantities are summed as-is; only the final group
sum is clamped to `1` when non-positive.  So two same-key items with
quantities `3` and `-5` aggregate to qty `1`. -/
theorem aggregator_qty_rule :
    coerceQty RawNum.junk = 1
    ∧ coerceQty RawNum.absent = 1
    ∧ (∀ (items : List RawItem) (k : String),
      (lookupA (runBucket items) k).map (fun g => (finalizeGroup g).qty) =
        match groupItems items k with
        | [] => none
        | g0 :: gs => some (qtyRule (g0 :: gs)))
    ∧ (_aggregate_items negQtyItems).map AggItem.qty = [1] := by
  refine ⟨rfl, rfl, ?_, by decide⟩
  intro items k
  rw [lookupA_runBucket]
  cases hg : groupItems items k with
  | nil => simp
  | cons g0 gs => simp [finalizeGroup_groupOf_qty]

/-- C8, counterexample: aggregation is not permutation-invariant — the
`unit` field keeps the first unit seen, so swapping two same-key items with
units `PCS` and `HR` changes the aggregated entry. -/
theorem aggregator_order_dependent_counterexample :
    unitPermA.Perm unitPermB
    ∧ _aggregate_items unitPermA ≠ _aggregate_items unitPermB
    ∧ (_aggregate_items unitPermA).map AggItem.unit = [some "PCS"]
    ∧ (_aggregate_items unitPermB).map AggItem.unit = [some "HR"] := by decide

/-- C8, amended: under any permutation of the input the bucket holds the
same keys, and each key's final qty and unit price are unchanged (sums,
counts and means over a group are permutation-invariant); only the
first-seen `unit` and `description` fields may differ. -/
theorem aggregator_perm_invariant (items items' : List RawItem)
    (h : items.Perm items') (k : String) :
    (lookupA (runBucket items) k).map
        (fun g => ((finalizeGroup g).qty, (finalizeGroup g).unit_price)) =
      (lookupA (runBucket items') k).map
        (fun g => ((finalizeGroup g).qty, (finalizeGroup g).unit_price)) := by
  rw [lookupA_runBucket, lookupA_runBucket]
  have hperm : (groupItems items k).Perm (groupItems items' k) := h.filter _
  cases hg : groupItems items k with
  | nil =>
    have hg' : groupItems items' k = [] := by
      rw [hg] at hperm
      exact List.length_eq_zero.mp (hperm.length_eq.symm ▸ rfl)
    simp [hg, hg']
  | cons g0 gs =>
    cases hg' : groupItems items' k with
    | nil =>
      rw [hg, hg'] at hperm
      exact absurd hperm.length_eq (by simp)
    | cons g0' gs' =>
      rw [hg, hg'] at hperm
      simp only [Option.map_some']
      rw [finalizeGroup_groupOf_qty, finalizeGroup_groupOf_up,
        finalizeGroup_groupOf_qty, finalizeGroup_groupOf_up]
      have hqsum : ((g0 :: gs).map (fun it => coerceQty it.qty)).sum
          = ((g0' :: gs').map (fun it => coerceQty it.qty)).sum :=
        (hperm.map _).sum_eq
      have hq : qtyRule (g0 :: gs) = qtyRule (g0' :: gs') := by
        rw [qtyRule, qtyRule, hqsum]
      have hrp : ((g0 :: gs).filterMap (fun it => collectNum it.rate)).Perm
          ((g0' :: gs').filterMap (fun it => collectNum it.rate)) :=
        hperm.filterMap _
      have hvp : ((g0 :: gs).filterMap (fun it => collectNum it.value)).Perm
          ((g0' :: gs').filterMap (fun it => collectNum it.value)) :=
        hperm.filterMap _
      have hup : upRule (g0 :: gs) = upRule (g0' :: gs') := by
        rw [upRule, upRule, hrp.sum_eq, hrp.length_eq, hvp.sum_eq, hq]
        by_cases hr : ((g0' :: gs').filterMap (fun it => collectNum it.rate)) = []
        · have hr₁ : ((g0 :: gs).filterMap (fun it => collectNum it.rate)) = [] :=
            List.length_eq_zero.mp (hrp.length_eq.trans (by simp [hr]))
          by_cases hv : ((g0' :: gs').filterMap (fun it => collectNum it.value)) = []
          · have hv₁ : ((g0 :: gs).filterMap (fun it => collectNum it.value)) = [] :=
              List.length_eq_zero.mp (hvp.length_eq.trans (by simp [hv]))
            simp [hr, hr₁, hv, hv₁]
          · have hv₁ : ((g0 :: gs).filterMap (fun it => collectNum it.value)) ≠ [] := by
              intro hc
              exact hv (List.length_eq_zero.mp (hvp.length_eq.symm.trans (by simp [hc])))
            simp [hr, hr₁, hv, hv₁]
        · have hr₁ : ((g0 :: gs).filterMap (fun it => collectNum it.rate)) ≠ [] := by
            intro hc
            exact hr (List.length_eq_zero.mp (hrp.length_eq.symm.trans (by simp [hc])))
          simp [hr, hr₁]
      rw [hq, hup]

/-- C8 witness: the permutation invariant applied to the two-item swap at
key `A`: qty and unit price agree even though the aggregated entries differ
in their `unit` field. -/
theorem aggregator_perm_invariant_witness :
    (lookupA (runBucket unitPermA) "A").map
        (fun g => ((finalizeGroup g).qty, (finalizeGroup g).unit_price)) =
      (lookupA (runBucket unitPermB) "A").map
        (fun g => ((finalizeGroup g).qty, (finalizeGroup g).unit_price)) :=
  aggregator_perm_invariant unitPermA unitPermB (by decide) "A"

/-- C10: every item whose `item_code`/`code` fields are absent or empty and
whose description is absent or empty gets the default description `Item`
and the normalised key `item`; a non-empty input consisting only of such
items collapses into exactly one aggregated entry, with `code = None`,
description `Item`, and qty the sum of the coerced quantities (when that
sum is positive, i.e. for ordinary positive quantities). -/
theorem blank_items_collapse (items : List RawItem) (hne : items ≠ [])
    (hblank : ∀ it ∈ items,
      (it.item_code = none ∨ it.item_code = some "")
      ∧ (it.code = none ∨ it.code = some "")
      ∧ (it.description = none ∨ it.description = some ""))
    (hqty : ∀ it ∈ items, 0 < coerceQty it.qty) :
    (∀ it ∈ items, pyDesc it = "Item" ∧ pyKey it = "item")
    ∧ (runBucket items).map Prod.fst = ["item"]
    ∧ (_aggregate_items items).map (fun e => (e.code, e.description, e.qty))
      = [(none, "Item", (items.map (fun it => coerceQty it.qty)).sum)] := by
  have hItemTrim : pyStrip "Item" = "Item" := by decide
  have hItemNorm : pyNormalizeDesc "Item" = "item" := by decide
  have hEmptyTrim : pyStrip "" = "" := by decide
  have hitem : ∀ it ∈ items, pyDesc it = "Item" ∧ pyKey it = "item" := by
    intro it hit
    rcases hblank it hit with ⟨hic, hc, hd⟩
    have hdesc : pyDesc it = "Item" := by
      rcases hd with hd | hd <;> rw [pyDesc, hd] <;> simp [hItemTrim]
    have hcode : pyCodeStr it = "" := by
      rcases hic with h1 | h1 <;> rcases hc with h2 | h2 <;>
        rw [pyCodeStr, h1] <;> simp [h2, hEmptyTrim]
    refine ⟨hdesc, ?_⟩
    rw [pyKey, if_pos hcode, hdesc, hItemNorm]
  have hkeys : (runBucket items).map Prod.fst = ["item"] := by
    rw [keys_runBucket]
    apply pyDedup_const
    · simp [hne]
    · intro x hx
      rcases List.mem_map.mp hx with ⟨it, hit, rfl⟩
      exact (hitem it hit).2
  refine ⟨hitem, hkeys, ?_⟩
  obtain ⟨g, hb⟩ := bucket_of_single_key _ _ hkeys
  have hgroup : groupItems items "item" = items := by
    apply List.filter_eq_self.mpr
    intro it hit
    simp [(hitem it hit).2]
  obtain ⟨g0, gs, hitems⟩ : ∃ g0 gs, items = g0 :: gs := by
    cases items with
    | nil => exact absurd rfl hne
    | cons a l => exact ⟨a, l, rfl⟩
  subst hitems
  have hlook : lookupA (runBucket (g0 :: gs)) "item" = some (groupOf g0 gs) := by
    rw [lookupA_runBucket, hgroup]
  rw [hb] at hlook
  have hg : g = groupOf g0 gs := by
    simpa [lookupA] using hlook
  have hsum : 0 < ((g0 :: gs).map (fun it => coerceQty it.qty)).sum := by
    apply sum_pos_of_forall_pos
    · simp
    · intro x hx
      rcases List.mem_map.mp hx with ⟨it, hit, rfl⟩
      exact hqty it hit
  have hg0 : pyCodeStr g0 = "" := by
    rcases hblank g0 (List.mem_cons_self _ _) with ⟨hic, hc, _⟩
    rcases hic with h1 | h1 <;> rcases hc with h2 | h2 <;>
      rw [pyCodeStr, h1] <;> simp [h2, hEmptyTrim]
  have hd0 : pyDesc g0 = "Item" := (hitem g0 (List.mem_cons_self _ _)).1
  rw [_aggregate_items, hb, hg]
  simp only [List.map_cons, List.map_nil]
  congr 1
  refine Prod.ext ?_ (Prod.ext ?_ ?_)
  · simp [finalizeGroup, groupOf_code, hg0]
  · simp [finalizeGroup, groupOf_desc, hd0]
  · rw [finalizeGroup_groupOf_qty, qtyRule, if_pos hsum]
    simp

/-- C10 witness: two blank items with quantities 2 and 3 collapse into the
single `Item` entry with qty 5. -/
theorem blank_items_collapse_witness :
    (_aggregate_items blankPairItems).map (fun e => (e.code, e.description, e.qty))
      = [(none, "Item", (blankPairItems.map (fun it => coerceQty it.qty)).sum)] :=
  (blank_items_collapse blankPairItems (by decide) (by decide) (by decide)).2.2

end Superdoll
